import Mathlib

/-!
A shallow embedding of `labs/08/tagger_competition.py`: the `TrainableModule`
training harness (configure / fit / evaluate / predict / train_step / test_step /
save_weights / load_weights / add_logs), the argparse command-line configuration,
and the prediction-file writing loop of `main`.

Scalars (losses, metric values, learning rates, tensor entries) are modelled as
exact rationals `ℚ`; tensors are lists of scalars; Python dictionaries of scalar
logs are association lists merged with Python's `dict |` semantics; devices are
plain strings as in `torch.device`.  Side effects on TensorBoard writers are
modelled by an explicit event trace.
-/

namespace Tagger

/-- Scalar log records (`logs` dictionaries in the source): association lists
from string keys to rational values, in Python dict insertion order. -/
abbrev Logs := List (String × ℚ)

/-- One dataloader element: a pair of the (flattened) input tensor and target. -/
abbrev Batch := List ℚ × ℚ

/-- `torchmetrics.MeanMetric`: accumulates a sum of updated values and their
count; `compute` reports their arithmetic mean. -/
structure MeanMetric where
  total : ℚ
  count : ℕ
deriving DecidableEq

/-- `MeanMetric.reset()`: clears the accumulated state. -/
def MeanMetric.reset (_ : MeanMetric) : MeanMetric := ⟨0, 0⟩

/-- `MeanMetric.update(v)` with default weight 1. -/
def MeanMetric.update (m : MeanMetric) (v : ℚ) : MeanMetric := ⟨m.total + v, m.count + 1⟩

/-- `MeanMetric.compute()`: the arithmetic mean of the values seen so far. -/
def MeanMetric.compute (m : MeanMetric) : ℚ := m.total / (m.count : ℚ)

/-- One entry of a `torchmetrics.MetricCollection`: a per-batch scoring
function of `(y_pred, y)` together with its running accumulator. -/
structure Metric where
  fn : ℚ → ℚ → ℚ
  acc : MeanMetric

/-- `torchmetrics.MetricCollection(metrics)`: named metrics, as a dict. -/
abbrev MetricColl := List (String × Metric)

/-- `MetricCollection.reset()`. -/
def resetColl (ms : MetricColl) : MetricColl :=
  ms.map fun nm => (nm.1, ⟨nm.2.fn, nm.2.acc.reset⟩)

/-- `MetricCollection.update(y_pred, y)`. -/
def updateColl (ms : MetricColl) (yPred y : ℚ) : MetricColl :=
  ms.map fun nm => (nm.1, ⟨nm.2.fn, nm.2.acc.update (nm.2.fn yPred y)⟩)

/-- `MetricCollection.compute()`: a dict from metric name to current value. -/
def computeColl (ms : MetricColl) : Logs :=
  ms.map fun nm => (nm.1, nm.2.acc.compute)

/-- An optimizer: `optimizer.step()` maps current parameters and their
gradients to updated parameters. -/
structure Optimizer where
  step : List ℚ → List ℚ → List ℚ

/-- A learning-rate schedule: the current learning rate and the update rule
applied by `schedule.step()`. -/
structure Schedule where
  lr : ℚ
  next : ℚ → ℚ

/-- `schedule.step()`. -/
def Schedule.step (s : Schedule) : Schedule := ⟨s.next s.lr, s.next⟩

/-- `schedule.get_last_lr()`. -/
def Schedule.get_last_lr (s : Schedule) : List ℚ := [s.lr]

/-- Observable side effects of the harness, recorded as a trace. -/
inductive Event where
  | zeroGrad
  | forwardPass
  | lossComputed
  | backwardPass
  | optimizerStep
  | scheduleStep
  | createWriter (name : String)
  | addScalar (writer key : String) (step : ℕ)
  | flushWriter (name : String)
deriving DecidableEq

/-- The rightmost value bound to key `k` in a record, if any. -/
def lastVal (k : String) (l : Logs) : Option ℚ :=
  ((l.filter fun kv => kv.1 == k).getLast?).map Prod.snd

/-- Python dict union `a | b`: keys of `a` in order with values overridden by
`b` where present, followed by the keys of `b` absent from `a`, in order. -/
def dictMerge (a b : Logs) : Logs :=
  (a.map fun kv => (kv.1, (lastVal kv.1 b).getD kv.2))
    ++ b.filter fun kv => a.all fun kv2 => kv2.1 != kv.1

/-- Dictionary lookup (first binding of the key, unique in well-formed dicts). -/
def lookupKey (k : String) (l : Logs) : Option ℚ :=
  (l.find? fun kv => kv.1 == k).map Prod.snd

/-- The device-selection expression shared by `configure` and `load_weights`:
`("cuda" if torch.cuda.is_available() else "cpu") if device == "auto" else device`. -/
def resolveDevice (device : String) (cudaAvailable : Bool) : String :=
  if device = "auto" then (if cudaAvailable then "cuda" else "cpu") else device

/-- Python `k.startswith("dev_")`, computed on the character list. -/
def startsWithDev (s : String) : Bool :=
  match s.data with
  | 'd' :: 'e' :: 'v' :: '_' :: _ => true
  | _ => false

/-- Python `k[4:]`. -/
def dropDev (s : String) : String := String.mk (s.data.drop 4)

/-- Python truthiness of `self.logdir` in `add_logs`: `None` and the empty
string are falsy. -/
def logdirTruthy (logdir : Option String) : Bool :=
  match logdir with
  | none => false
  | some s => s != ""

/-- The state of a `TrainableModule`: its learnable parameters and their
gradients and device placements, the autograd functions realising
`forward`/`backward` for this architecture, the training-mode flag, and the
attributes installed by `configure`. -/
structure TrainableModule where
  forward : List ℚ → List ℚ → ℚ
  backward : List ℚ → List ℚ → ℚ → List ℚ
  params : List ℚ
  grads : List ℚ
  paramDevices : List String
  training : Bool
  optimizer : Optimizer
  schedule : Option Schedule
  lossFn : ℚ → ℚ → ℚ
  loss_metric : MeanMetric
  metrics : MetricColl
  logdir : Option String
  writers : List String
  device : String

namespace TrainableModule

/-- `self.train()`. -/
def trainMode (m : TrainableModule) : TrainableModule := { m with training := true }

/-- `self.eval()`. -/
def evalMode (m : TrainableModule) : TrainableModule := { m with training := false }

/-- `self.zero_grad()`. -/
def zero_grad (m : TrainableModule) : TrainableModule :=
  { m with grads := m.grads.map fun _ => 0 }

/-- `TrainableModule.configure`: stores optimizer, schedule, loss, a fresh
`MeanMetric`, the metric collection, logdir with an empty writer table,
resolves the device and moves every parameter to it (`self.to(self.device)`). -/
def configure (m : TrainableModule) (optimizer : Optimizer) (schedule : Option Schedule)
    (loss : ℚ → ℚ → ℚ) (metrics : MetricColl) (logdir : Option String)
    (device : String) (cudaAvailable : Bool) : TrainableModule :=
  let dev := resolveDevice device cudaAvailable
  { m with
    optimizer := optimizer
    schedule := schedule
    lossFn := loss
    loss_metric := ⟨0, 0⟩
    metrics := metrics
    logdir := logdir
    writers := []
    device := dev
    paramDevices := m.paramDevices.map fun _ => dev }

/-- `TrainableModule.save_weights`: serialises the state dict (the parameter
vector) to the file at `path`; the returned list is the file's content. -/
def save_weights (m : TrainableModule) : List ℚ := m.params

/-- `TrainableModule.load_weights`: resolves the device, then
`load_state_dict` copies the saved values into the existing parameters
(strict: the saved state must match the architecture, here its length). -/
def load_weights (m : TrainableModule) (saved : List ℚ) (device : String)
    (cudaAvailable : Bool) : Option TrainableModule :=
  if saved.length = m.params.length then
    some { m with device := resolveDevice device cudaAvailable, params := saved }
  else none

/-- `TrainableModule.train_step`: zero_grad, forward, loss, backward, one
optimizer step, one schedule step when a schedule is configured, accumulator
updates, and the returned log dict built with Python dict unions. -/
def train_step (m : TrainableModule) (xs : List ℚ) (y : ℚ) :
    TrainableModule × Logs × List Event :=
  let m1 := m.zero_grad
  let y_pred := m1.forward m1.params xs
  let loss := m1.lossFn y_pred y
  let m2 := { m1 with grads := m1.backward m1.params xs y }
  let m3 := { m2 with params := m2.optimizer.step m2.params m2.grads }
  let m4 := { m3 with schedule := m3.schedule.map Schedule.step }
  let m5 := { m4 with
              loss_metric := m4.loss_metric.update loss
              metrics := updateColl m4.metrics y_pred y }
  let lrLogs : Logs := m5.schedule.elim [] fun s => [("lr", s.get_last_lr.headD 0)]
  let logs := dictMerge (dictMerge [("loss", m5.loss_metric.compute)] lrLogs)
                (computeColl m5.metrics)
  let events := [Event.zeroGrad, Event.forwardPass, Event.lossComputed, Event.backwardPass,
                 Event.optimizerStep]
                ++ m.schedule.elim [] fun _ => [Event.scheduleStep]
  (m5, logs, events)

/-- `TrainableModule.test_step`: forward and accumulator updates under
`torch.no_grad()`; parameters and gradients are untouched. -/
def test_step (m : TrainableModule) (xs : List ℚ) (y : ℚ) :
    TrainableModule × Logs :=
  let y_pred := m.forward m.params xs
  let m1 := { m with
              loss_metric := m.loss_metric.update (m.lossFn y_pred y)
              metrics := updateColl m.metrics y_pred y }
  (m1, dictMerge [("loss", m1.loss_metric.compute)] (computeColl m1.metrics))

/-- `TrainableModule.predict_step` (under `torch.no_grad()`). -/
def predict_step (m : TrainableModule) (xs : List ℚ) : ℚ := m.forward m.params xs

/-- `TrainableModule.predict`: switches to eval mode and maps `predict_step`
over the dataloader, collecting the per-example predictions. -/
def predict (m : TrainableModule) (dataloader : List (List ℚ)) :
    TrainableModule × List ℚ :=
  (m.evalMode, dataloader.map fun xs => m.evalMode.predict_step xs)

end TrainableModule

/-- The common head of a fit-epoch and of `evaluate`: set the mode and reset
`self.loss_metric` and `self.metrics`. -/
def passInit (m : TrainableModule) (training : Bool) : TrainableModule :=
  { m with
    training := training
    loss_metric := m.loss_metric.reset
    metrics := resetColl m.metrics }

/-- The batch loop of one fit epoch: `logs = self.train_step(xs, y)` for each
batch; `none` models the local variable `logs` being still unbound. -/
def trainSteps (m : TrainableModule) (lg : Option Logs) :
    List Batch → TrainableModule × Option Logs
  | [] => (m, lg)
  | b :: rest =>
      let r := m.train_step b.1 b.2
      trainSteps r.1 (some r.2.1) rest

/-- The per-batch loss values produced along the batch loop of a training
pass (the value `self.loss(y_pred, y)` of each `train_step`, at the parameters
current when that batch is processed). -/
def passLosses (m : TrainableModule) : List Batch → List ℚ
  | [] => []
  | b :: rest =>
      m.lossFn (m.forward m.params b.1) b.2 :: passLosses (m.train_step b.1 b.2).1 rest

/-- The batch loop of `evaluate`: `logs = self.test_step(xs, y)` per batch. -/
def evalSteps (m : TrainableModule) (lg : Option Logs) :
    List Batch → TrainableModule × Option Logs
  | [] => (m, lg)
  | b :: rest =>
      let r := m.test_step b.1 b.2
      evalSteps r.1 (some r.2) rest

/-- `TrainableModule.evaluate`: eval mode, accumulator resets, then the full
batch loop.  A `none` log component models the `UnboundLocalError` raised on
an empty dataloader (`logs` is never assigned before `return logs`). -/
def TrainableModule.evaluate (m : TrainableModule) (dataloader : List Batch) :
    TrainableModule × Option Logs :=
  evalSteps (passInit m false) none dataloader

/-- `logs |= {"dev_" + k: v for k, v in self.evaluate(dev, verbose=0).items()}`. -/
def devAugment (lg : Logs) (dlg : Logs) : Logs :=
  dictMerge lg (dlg.map fun kv => ("dev_" ++ kv.1, kv.2))

/-- `TrainableModule.writer`: look up the TensorBoard writer for a stream
name, creating (and recording) it only when absent. -/
def TrainableModule.writer (m : TrainableModule) (name : String) :
    TrainableModule × List Event :=
  if name ∈ m.writers then (m, [])
  else ({ m with writers := m.writers ++ [name] }, [Event.createWriter name])

/-- The loop `for key, value in logs.items(): self.writer(writer).add_scalar(key, value, step)`. -/
def addScalars (m : TrainableModule) (name : String) (step : ℕ) :
    Logs → TrainableModule × List Event
  | [] => (m, [])
  | kv :: rest =>
      let r := m.writer name
      let r2 := addScalars r.1 name step rest
      (r2.1, r.2 ++ [Event.addScalar name kv.1 step] ++ r2.2)

/-- `TrainableModule.add_logs`: guarded by the Python truthiness of `logs`
and `self.logdir`; on the effective path adds every scalar and then flushes
the (possibly just created) writer. -/
def TrainableModule.add_logs (m : TrainableModule) (name : String) (logs : Logs)
    (step : ℕ) : TrainableModule × List Event :=
  if !logs.isEmpty && logdirTruthy m.logdir then
    let r := addScalars m name step logs
    let r2 := r.1.writer name
    (r2.1, r.2 ++ r2.2 ++ [Event.flushWriter name])
  else (m, [])

/-- The tail of one fit epoch once `logs` is bound: the callback invocations
(recorded as `(callback index, epoch, logs)` triples; the source also passes
`self`, i.e. the current module state) followed by the two `add_logs` calls
that split the record into its non-`dev_` and `dev_` parts. -/
def epochFinish (m : TrainableModule) (lg : Logs) (ncb e : ℕ) :
    TrainableModule × Option Logs × List (ℕ × ℕ × Logs) :=
  let calls := (List.range ncb).map fun i => (i, e, lg)
  let m1 := (m.add_logs "train" (lg.filter fun kv => !startsWithDev kv.1) (e + 1)).1
  let m2 := (m1.add_logs "dev"
      ((lg.filter fun kv => startsWithDev kv.1).map fun kv => (dropDev kv.1, kv.2)) (e + 1)).1
  (m2, some lg, calls)

/-- One epoch of `fit`: train mode and accumulator resets, the batch loop,
the optional dev evaluation merged under the `dev_` prefix, callbacks, and
scalar logging.  A `none` log component models the `UnboundLocalError` hit
when the dataloader (or the dev dataloader) yields no batch, in which case no
callback is invoked. -/
def runEpoch (dev : Option (List Batch)) (ncb e : ℕ)
    (m : TrainableModule) (dataloader : List Batch) :
    TrainableModule × Option Logs × List (ℕ × ℕ × Logs) :=
  let r := trainSteps (passInit m true) none dataloader
  match r.2 with
  | none => (r.1, none, [])
  | some lg =>
      match dev with
      | none => epochFinish r.1 lg ncb e
      | some d =>
          let rd := r.1.evaluate d
          match rd.2 with
          | none => (rd.1, none, [])
          | some dlg => epochFinish rd.1 (devAugment lg dlg) ncb e

/-- The epoch loop of `fit`, by remaining epoch count.  The boolean is false
when an epoch aborted with an error; the log component is the record of the
last completed epoch (`none` when no epoch ever bound `logs`). -/
def fitLoop (dataloader : List Batch) (dev : Option (List Batch)) (ncb : ℕ) :
    ℕ → ℕ → TrainableModule →
    TrainableModule × Option Logs × Bool × List (ℕ × ℕ × Logs)
  | 0, _, m => (m, none, true, [])
  | fuel + 1, e, m =>
      match (runEpoch dev ncb e m dataloader).2.1 with
      | none => ((runEpoch dev ncb e m dataloader).1, none, false,
                 (runEpoch dev ncb e m dataloader).2.2)
      | some lg =>
          ((fitLoop dataloader dev ncb fuel (e + 1) (runEpoch dev ncb e m dataloader).1).1,
           if (fitLoop dataloader dev ncb fuel (e + 1)
                 (runEpoch dev ncb e m dataloader).1).2.2.1
           then some ((fitLoop dataloader dev ncb fuel (e + 1)
                 (runEpoch dev ncb e m dataloader).1).2.1.getD lg)
           else none,
           (fitLoop dataloader dev ncb fuel (e + 1)
             (runEpoch dev ncb e m dataloader).1).2.2.1,
           (runEpoch dev ncb e m dataloader).2.2
             ++ (fitLoop dataloader dev ncb fuel (e + 1)
                   (runEpoch dev ncb e m dataloader).1).2.2.2)

/-- `TrainableModule.fit`: runs `epochs` epochs and returns the final state,
`return logs` (`none` when `logs` was never bound or an epoch errored), and
the trace of callback invocations. -/
def TrainableModule.fit (m : TrainableModule) (dataloader : List Batch) (epochs : ℕ)
    (dev : Option (List Batch)) (ncb : ℕ) :
    TrainableModule × Option Logs × List (ℕ × ℕ × Logs) :=
  let r := fitLoop dataloader dev ncb epochs 0 m
  (r.1, r.2.1, r.2.2.2)

/-- The module state reached after running `k` further epochs of a `fit` run
whose next epoch index is `e0`. -/
def afterEpochsFrom (dataloader : List Batch) (dev : Option (List Batch)) (ncb : ℕ)
    (e0 : ℕ) (m : TrainableModule) : ℕ → TrainableModule
  | 0 => m
  | k + 1 =>
      (runEpoch dev ncb (e0 + k) (afterEpochsFrom dataloader dev ncb e0 m k) dataloader).1

/-- The module state reached after the first `e` epochs of a `fit` run. -/
def afterEpochs (dataloader : List Batch) (dev : Option (List Batch)) (ncb : ℕ)
    (m : TrainableModule) (e : ℕ) : TrainableModule :=
  afterEpochsFrom dataloader dev ncb 0 m e

/-- The metric record produced by the `k`-th further epoch (0-based) of a
`fit` run whose next epoch index is `e0`. -/
def logsOfEpochFrom (dataloader : List Batch) (dev : Option (List Batch)) (ncb : ℕ)
    (e0 : ℕ) (m : TrainableModule) (k : ℕ) : Option Logs :=
  (runEpoch dev ncb (e0 + k) (afterEpochsFrom dataloader dev ncb e0 m k) dataloader).2.1

/-- The metric record produced by epoch `e` of a `fit` run (0-based). -/
def logsOfEpoch (dataloader : List Batch) (dev : Option (List Batch)) (ncb : ℕ)
    (m : TrainableModule) (e : ℕ) : Option Logs :=
  logsOfEpochFrom dataloader dev ncb 0 m e

/-! ### The command-line configuration (lines 16–20 of the source) -/

/-- A parsed argument value: either an integer produced by `type=int`, or the
placeholder default `...` (Python's `Ellipsis`) left in the skeleton for
`--batch_size` and `--epochs`. -/
inductive ArgValue where
  | int (n : ℤ)
  | ellipsis
deriving DecidableEq

/-- Whether an argument value is an integer. -/
def ArgValue.isInt : ArgValue → Bool
  | .int _ => true
  | .ellipsis => false

/-- The parsed namespace `args`. -/
structure Args where
  batch_size : ArgValue
  epochs : ArgValue
  seed : ArgValue
  threads : ArgValue
deriving DecidableEq

/-- A command line: for each flag, the integer successfully parsed by
`type=int` when the flag is present, `none` when the flag is omitted. -/
structure CmdLine where
  batch_size : Option ℤ
  epochs : Option ℤ
  seed : Option ℤ
  threads : Option ℤ

/-- argparse resolution of one flag: the converted provided value, or the
stored default. -/
def resolveArg (provided : Option ℤ) (default : ArgValue) : ArgValue :=
  match provided with
  | some n => .int n
  | none => default

/-- `parser.parse_args()` for the four registered flags, with the defaults of
the source: `default=...` for `--batch_size` and `--epochs`, `default=42` for
`--seed`, `default=1` for `--threads`. -/
def parse_args (c : CmdLine) : Args :=
  { batch_size := resolveArg c.batch_size .ellipsis
    epochs := resolveArg c.epochs .ellipsis
    seed := resolveArg c.seed (.int 42)
    threads := resolveArg c.threads (.int 1) }

/-! ### The prediction-writing loop of `main` (lines 230–233 of the source) -/

/-- The index of the first maximal element of a list (`np.argmax` on a 1-D
array; 0 on the empty list). -/
def argmaxIdx : List ℚ → ℕ
  | [] => 0
  | [_] => 0
  | x :: y :: rest =>
      if x < (y :: rest).getD (argmaxIdx (y :: rest)) 0
      then argmaxIdx (y :: rest) + 1
      else 0

/-- The number of columns of a row-major matrix (its first row's length). -/
def numCols (m : List (List ℚ)) : ℕ := (m.headD []).length

/-- Column `j` of a row-major matrix. -/
def column (m : List (List ℚ)) (j : ℕ) : List ℚ := m.map fun r => r.getD j 0

/-- `np.argmax(a, axis=0)`: for each column, the index of the first maximal
row entry. -/
def argmaxAxis0 (m : List (List ℚ)) : List ℕ :=
  (List.range (numCols m)).map fun j => argmaxIdx (column m j)

/-- The lines printed for one test sentence: one vocabulary string per
position of `np.argmax(predicted_tags[:, :len(forms)], axis=0)`, followed by
the blank line of the trailing `print(file=predictions_file)`. -/
def sentenceLines (vocab : ℕ → String) (predicted_tags : List (List ℚ))
    (forms : List String) : List String :=
  (argmaxAxis0 (predicted_tags.map (List.take forms.length))).map vocab ++ [""]

/-- The full content of `tagger_competition.txt`, as its list of lines: the
loop `for predicted_tags, forms in zip(predictions, morpho.test.forms.strings)`. -/
def writePredictions (vocab : ℕ → String) (predictions : List (List (List ℚ)))
    (formsList : List (List String)) : List String :=
  (predictions.zip formsList).flatMap fun pf => sentenceLines vocab pf.1 pf.2

/-! ### A concrete module instance, used in witnesses and counterexamples -/

/-- A concrete configured module: a scalar linear model `p * x` with squared
loss, gradient descent with learning rate 1/10, one auxiliary metric, and
deliberately dirty accumulators (to exercise the per-pass resets). -/
def sampleModule : TrainableModule where
  forward := fun ps xs => ps.headD 0 * xs.headD 0
  backward := fun ps xs y => ps.map fun p => 2 * (p * xs.headD 0 - y) * xs.headD 0
  params := [1]
  grads := [0]
  paramDevices := ["cpu"]
  training := false
  optimizer := ⟨fun ps gs => (ps.zip gs).map fun pg => pg.1 - pg.2 / 10⟩
  schedule := none
  lossFn := fun yp y => (yp - y) * (yp - y)
  loss_metric := ⟨5, 3⟩
  metrics := [("const", ⟨fun _ _ => 1, ⟨2, 1⟩⟩)]
  logdir := some "logs/run"
  writers := []
  device := "cpu"

/-! ### Helper lemmas about log records -/

theorem lastVal_of_notMem (k : String) (b : Logs) (h : k ∉ b.map Prod.fst) :
    lastVal k b = none := by
  have : b.filter (fun kv => kv.1 == k) = [] := by
    rw [List.filter_eq_nil_iff]
    intro kv hkv hbeq
    exact h (List.mem_map.mpr ⟨kv, hkv, by simpa using hbeq⟩)
  simp [lastVal, this]

theorem lookupKey_of_notMem (k : String) (b : Logs) (h : k ∉ b.map Prod.fst) :
    lookupKey k b = none := by
  have : b.find? (fun kv => kv.1 == k) = none := by
    rw [List.find?_eq_none]
    intro kv hkv hbeq
    exact h (List.mem_map.mpr ⟨kv, hkv, by simpa using hbeq⟩)
  simp [lookupKey, this]

theorem dictMerge_disjoint (a b : Logs)
    (h : ∀ k ∈ a.map Prod.fst, k ∉ b.map Prod.fst) :
    dictMerge a b = a ++ b := by
  unfold dictMerge
  have h1 : (a.map fun kv => (kv.1, (lastVal kv.1 b).getD kv.2)) = a := by
    conv_rhs => rw [← List.map_id a]
    apply List.map_congr_left
    intro kv hkv
    have hm : kv.1 ∉ b.map Prod.fst := h _ (List.mem_map.mpr ⟨kv, hkv, rfl⟩)
    rw [lastVal_of_notMem _ _ hm]
    rfl
  have h2 : (b.filter fun kv => a.all fun kv2 => kv2.1 != kv.1) = b := by
    rw [List.filter_eq_self]
    intro kv hkv
    rw [List.all_eq_true]
    intro kv2 hkv2
    have : kv2.1 ≠ kv.1 := by
      intro he
      exact h _ (List.mem_map.mpr ⟨kv2, hkv2, rfl⟩)
        (List.mem_map.mpr ⟨kv, hkv, he.symm⟩)
    simpa using this
  rw [h1, h2]

theorem lookupKey_merge2 (k : String) (v : ℚ) (c : Logs)
    (hc : k ∉ c.map Prod.fst) :
    lookupKey k (dictMerge [(k, v)] c) = some v := by
  simp [dictMerge, lookupKey, lastVal_of_notMem _ _ hc, List.find?_cons]

theorem lookupKey_merge3 (k : String) (v : ℚ) (b c : Logs)
    (hb : k ∉ b.map Prod.fst) (hc : k ∉ c.map Prod.fst) :
    lookupKey k (dictMerge (dictMerge [(k, v)] b) c) = some v := by
  simp [dictMerge, lookupKey, lastVal_of_notMem _ _ hb, lastVal_of_notMem _ _ hc,
    List.find?_cons]

/-! ### Helper lemmas about metric collections and the step functions -/

@[simp]
theorem updateColl_names (ms : MetricColl) (yp y : ℚ) :
    (updateColl ms yp y).map Prod.fst = ms.map Prod.fst := by
  simp [updateColl]

@[simp]
theorem resetColl_names (ms : MetricColl) :
    (resetColl ms).map Prod.fst = ms.map Prod.fst := by
  simp [resetColl]

@[simp]
theorem computeColl_names (ms : MetricColl) :
    (computeColl ms).map Prod.fst = ms.map Prod.fst := by
  simp [computeColl]

@[simp]
theorem train_step_loss_metric (m : TrainableModule) (xs : List ℚ) (y : ℚ) :
    (m.train_step xs y).1.loss_metric
      = m.loss_metric.update (m.lossFn (m.forward m.params xs) y) := rfl

@[simp]
theorem train_step_metrics (m : TrainableModule) (xs : List ℚ) (y : ℚ) :
    (m.train_step xs y).1.metrics
      = updateColl m.metrics (m.forward m.params xs) y := rfl

theorem train_step_params (m : TrainableModule) (xs : List ℚ) (y : ℚ) :
    (m.train_step xs y).1.params
      = m.optimizer.step m.params (m.backward m.params xs y) := rfl

theorem train_step_schedule (m : TrainableModule) (xs : List ℚ) (y : ℚ) :
    (m.train_step xs y).1.schedule = m.schedule.map Schedule.step := rfl

theorem train_step_names (m : TrainableModule) (xs : List ℚ) (y : ℚ) :
    (m.train_step xs y).1.metrics.map Prod.fst = m.metrics.map Prod.fst := by
  rw [train_step_metrics, updateColl_names]

theorem train_step_logs (m : TrainableModule) (xs : List ℚ) (y : ℚ) :
    (m.train_step xs y).2.1
      = dictMerge (dictMerge
          [("loss", (m.loss_metric.update (m.lossFn (m.forward m.params xs) y)).compute)]
          ((m.schedule.map Schedule.step).elim [] fun s => [("lr", s.get_last_lr.headD 0)]))
        (computeColl (updateColl m.metrics (m.forward m.params xs) y)) := rfl

@[simp]
theorem test_step_params (m : TrainableModule) (xs : List ℚ) (y : ℚ) :
    (m.test_step xs y).1.params = m.params := rfl

@[simp]
theorem test_step_grads (m : TrainableModule) (xs : List ℚ) (y : ℚ) :
    (m.test_step xs y).1.grads = m.grads := rfl

@[simp]
theorem test_step_forward (m : TrainableModule) (xs : List ℚ) (y : ℚ) :
    (m.test_step xs y).1.forward = m.forward := rfl

@[simp]
theorem test_step_lossFn (m : TrainableModule) (xs : List ℚ) (y : ℚ) :
    (m.test_step xs y).1.lossFn = m.lossFn := rfl

@[simp]
theorem test_step_loss_metric (m : TrainableModule) (xs : List ℚ) (y : ℚ) :
    (m.test_step xs y).1.loss_metric
      = m.loss_metric.update (m.lossFn (m.forward m.params xs) y) := rfl

/-! ### Helper lemmas about the batch loops -/

theorem trainSteps_nil (m : TrainableModule) (lg : Option Logs) :
    trainSteps m lg [] = (m, lg) := rfl

theorem evalSteps_nil (m : TrainableModule) (lg : Option Logs) :
    evalSteps m lg [] = (m, lg) := rfl

theorem trainSteps_cons (m : TrainableModule) (lg : Option Logs) (b : Batch)
    (rest : List Batch) :
    trainSteps m lg (b :: rest)
      = trainSteps (m.train_step b.1 b.2).1 (some (m.train_step b.1 b.2).2.1) rest := rfl

theorem evalSteps_cons (m : TrainableModule) (lg : Option Logs) (b : Batch)
    (rest : List Batch) :
    evalSteps m lg (b :: rest)
      = evalSteps (m.test_step b.1 b.2).1 (some (m.test_step b.1 b.2).2) rest := rfl

theorem trainSteps_loss_metric (bs : List Batch) :
    ∀ (m : TrainableModule) (lg : Option Logs),
    (trainSteps m lg bs).1.loss_metric
      = ⟨m.loss_metric.total + (passLosses m bs).sum,
         m.loss_metric.count + bs.length⟩ := by
  induction bs with
  | nil => intro m lg; simp [trainSteps, passLosses]
  | cons b rest ih =>
      intro m lg
      rw [trainSteps_cons, ih]
      simp only [train_step_loss_metric, MeanMetric.update, passLosses, List.sum_cons,
        List.length_cons]
      rw [MeanMetric.mk.injEq]
      exact ⟨by ring, by omega⟩

theorem evalSteps_loss_metric (bs : List Batch) :
    ∀ (m : TrainableModule) (lg : Option Logs),
    (evalSteps m lg bs).1.loss_metric
      = ⟨m.loss_metric.total + (bs.map fun b => m.lossFn (m.forward m.params b.1) b.2).sum,
         m.loss_metric.count + bs.length⟩ := by
  induction bs with
  | nil => intro m lg; simp [evalSteps]
  | cons b rest ih =>
      intro m lg
      rw [evalSteps_cons, ih]
      simp only [test_step_loss_metric, test_step_params, test_step_forward, test_step_lossFn,
        MeanMetric.update, List.map_cons, List.sum_cons, List.length_cons]
      rw [MeanMetric.mk.injEq]
      exact ⟨by ring, by omega⟩

theorem evalSteps_params (bs : List Batch) :
    ∀ (m : TrainableModule) (lg : Option Logs),
    (evalSteps m lg bs).1.params = m.params ∧ (evalSteps m lg bs).1.grads = m.grads := by
  induction bs with
  | nil => intro m lg; exact ⟨rfl, rfl⟩
  | cons b rest ih =>
      intro m lg
      rw [evalSteps_cons]
      obtain ⟨h1, h2⟩ := ih (m.test_step b.1 b.2).1 (some (m.test_step b.1 b.2).2)
      exact ⟨h1.trans rfl, h2.trans rfl⟩

theorem evalSteps_isSome (bs : List Batch) :
    ∀ (m : TrainableModule) (x : Logs),
    ((evalSteps m (some x) bs).2).isSome = true := by
  induction bs with
  | nil => intro m x; rfl
  | cons b rest ih => intro m x; rw [evalSteps_cons]; exact ih _ _

theorem trainSteps_loss_lookup (bs : List Batch) :
    ∀ (m : TrainableModule) (lg : Option Logs), bs ≠ [] →
    "loss" ∉ m.metrics.map Prod.fst →
    lookupKey "loss" ((trainSteps m lg bs).2.getD [])
      = some ((trainSteps m lg bs).1.loss_metric.compute) := by
  induction bs with
  | nil => intro m lg h; exact absurd rfl h
  | cons b rest ih =>
      intro m lg _ hname
      rw [trainSteps_cons]
      rcases rest with _ | ⟨b2, rest2⟩
      · rw [trainSteps_nil]
        show lookupKey "loss" ((m.train_step b.1 b.2).2.1) = _
        rw [train_step_logs, train_step_loss_metric]
        apply lookupKey_merge3
        · cases hs : m.schedule <;> simp [hs, Schedule.get_last_lr]
        · rw [computeColl_names, updateColl_names]; exact hname
      · exact ih _ _ (by simp) (by rw [train_step_names]; exact hname)

theorem evalSteps_loss_lookup (bs : List Batch) :
    ∀ (m : TrainableModule) (lg : Option Logs), bs ≠ [] →
    "loss" ∉ m.metrics.map Prod.fst →
    lookupKey "loss" ((evalSteps m lg bs).2.getD [])
      = some ((evalSteps m lg bs).1.loss_metric.compute) := by
  induction bs with
  | nil => intro m lg h; exact absurd rfl h
  | cons b rest ih =>
      intro m lg _ hname
      rw [evalSteps_cons]
      rcases rest with _ | ⟨b2, rest2⟩
      · rw [evalSteps_nil]
        show lookupKey "loss" ((m.test_step b.1 b.2).2) = _
        rw [show (m.test_step b.1 b.2).2
            = dictMerge
                [("loss", (m.loss_metric.update (m.lossFn (m.forward m.params b.1) b.2)).compute)]
                (computeColl (updateColl m.metrics (m.forward m.params b.1) b.2)) from rfl,
          test_step_loss_metric]
        apply lookupKey_merge2
        rw [computeColl_names, updateColl_names]; exact hname
      · refine ih _ _ (by simp) ?_
        rw [show (m.test_step b.1 b.2).1.metrics
            = updateColl m.metrics (m.forward m.params b.1) b.2 from rfl, updateColl_names]
        exact hname

theorem train_step_events (m : TrainableModule) (xs : List ℚ) (y : ℚ) :
    (m.train_step xs y).2.2
      = [Event.zeroGrad, Event.forwardPass, Event.lossComputed, Event.backwardPass,
         Event.optimizerStep] ++ m.schedule.elim [] fun _ => [Event.scheduleStep] := rfl

theorem dictMerge_single (k : String) (v : ℚ) (b : Logs) (h : k ∉ b.map Prod.fst) :
    dictMerge [(k, v)] b = (k, v) :: b := by
  have := dictMerge_disjoint [(k, v)] b (by
    intro k2 hk2
    simp only [List.map_cons, List.map_nil, List.mem_singleton] at hk2
    subst hk2
    exact h)
  simpa using this

theorem train_step_logs_clean (m : TrainableModule) (xs : List ℚ) (y : ℚ)
    (hloss : "loss" ∉ m.metrics.map Prod.fst)
    (hlr : "lr" ∉ m.metrics.map Prod.fst) :
    (m.train_step xs y).2.1
      = ("loss", (m.loss_metric.update (m.lossFn (m.forward m.params xs) y)).compute)
        :: ((m.schedule.map Schedule.step).elim [] fun s => [("lr", s.lr)])
        ++ computeColl (updateColl m.metrics (m.forward m.params xs) y) := by
  have hmets : (computeColl (updateColl m.metrics (m.forward m.params xs) y)).map Prod.fst
      = m.metrics.map Prod.fst := by rw [computeColl_names, updateColl_names]
  rw [train_step_logs]
  cases hs : m.schedule with
  | none =>
      simp only [Option.map_none', Option.elim_none]
      rw [dictMerge_single _ _ _ (by simp)]
      rw [dictMerge_single _ _ _ (by rw [hmets]; exact hloss)]
      simp
  | some s =>
      simp only [Option.map_some', Option.elim_some]
      rw [dictMerge_single _ _ _ (by simp)]
      rw [dictMerge_disjoint _ _ ?_]
      · simp [Schedule.get_last_lr]
      · intro k2 hk2
        rw [hmets]
        simp only [List.map_cons, List.map_nil, List.mem_cons, List.not_mem_nil,
          or_false] at hk2
        rcases hk2 with rfl | rfl
        · exact hloss
        · exact hlr

/-! ### Claim theorems -/

/-- C2: saving the weights with `save_weights` and loading them back with
`load_weights` restores the full parameter state and re-establishes the
device selection, so that `predict` on the same input (and hence the same
device) returns identical predictions to those produced before the save.
Predictions in the embedding are exact rationals, so "bit-identical"
becomes equality. -/
theorem save_load_roundtrip (m : TrainableModule) (device : String)
    (cudaAvailable : Bool) (dataloader : List (List ℚ)) :
    (m.load_weights m.save_weights device cudaAvailable).map
        (fun m2 => (m2.predict dataloader).2) = some (m.predict dataloader).2
    ∧ (m.load_weights m.save_weights device cudaAvailable).map
        TrainableModule.params = some m.params
    ∧ (m.load_weights m.save_weights device cudaAvailable).map
        TrainableModule.device = some (resolveDevice device cudaAvailable) := by
  refine ⟨?_, ?_, ?_⟩ <;>
    simp [TrainableModule.load_weights, TrainableModule.save_weights,
      TrainableModule.predict, TrainableModule.predict_step, TrainableModule.evalMode]

/-- C6: `configure` and `load_weights` with device `"auto"` select `"cuda"`
exactly when CUDA is available and `"cpu"` otherwise, and an explicit
device argument selects that device; `configure` moves every learnable
parameter to the selected device. -/
theorem device_selection (m : TrainableModule) (opt : Optimizer)
    (sch : Option Schedule) (loss : ℚ → ℚ → ℚ) (mets : MetricColl)
    (logdir : Option String) (device : String) (cudaAvailable : Bool)
    (saved : List ℚ) :
    (m.configure opt sch loss mets logdir device cudaAvailable).device
        = (if device = "auto" then (if cudaAvailable then "cuda" else "cpu") else device)
    ∧ (m.configure opt sch loss mets logdir device cudaAvailable).paramDevices
        = m.paramDevices.map (fun _ => resolveDevice device cudaAvailable)
    ∧ (m.load_weights saved device cudaAvailable).map TrainableModule.device
        = (if saved.length = m.params.length
           then some (if device = "auto" then (if cudaAvailable then "cuda" else "cpu")
                      else device)
           else none) := by
  refine ⟨rfl, rfl, ?_⟩
  by_cases h : saved.length = m.params.length <;>
    simp [TrainableModule.load_weights, h, resolveDevice]

/-- C7 (counterexample): with every flag omitted, the parsed value of
`--batch_size` (and of `--epochs`) is the placeholder `Ellipsis` left as
`default=...` in the skeleton, not an integer — refuting the claim that the
parsed configuration gives integer values for all four flags even when a
flag is omitted. -/
theorem parse_args_default_not_int :
    (parse_args ⟨none, none, none, none⟩).batch_size.isInt = false
    ∧ (parse_args ⟨none, none, none, none⟩).epochs.isInt = false
    ∧ (parse_args ⟨none, none, none, none⟩).seed.isInt = true
    ∧ (parse_args ⟨none, none, none, none⟩).threads.isInt = true := by
  refine ⟨rfl, rfl, rfl, rfl⟩

/-- C7 (amended): `--seed` and `--threads` always parse to integers (defaults
42 and 1); `--batch_size` and `--epochs` parse to the provided integer when
the flag is given and to the non-integer `Ellipsis` placeholder when
omitted. -/
theorem parse_args_values (c : CmdLine) :
    (parse_args c).seed.isInt = true
    ∧ (parse_args c).threads.isInt = true
    ∧ (parse_args c).batch_size = (c.batch_size.map ArgValue.int).getD ArgValue.ellipsis
    ∧ (parse_args c).epochs = (c.epochs.map ArgValue.int).getD ArgValue.ellipsis
    ∧ (parse_args c).seed = (c.seed.map ArgValue.int).getD (ArgValue.int 42)
    ∧ (parse_args c).threads = (c.threads.map ArgValue.int).getD (ArgValue.int 1) := by
  obtain ⟨b, e, s, t⟩ := c
  refine ⟨?_, ?_, ?_, ?_, ?_, ?_⟩ <;>
    cases b <;> cases e <;> cases s <;> cases t <;>
      simp [parse_args, resolveArg, ArgValue.isInt]

/-- C9: `evaluate` on a dataloader yielding no batches, and `fit` with an
epoch count of zero, produce no metric record (the local variable `logs` is
never bound, modelling the `UnboundLocalError` of the source): at least one
batch, respectively at least one epoch, is a precondition for a defined
result. -/
theorem empty_pass_unbound_logs (m : TrainableModule) (dataloader : List Batch)
    (dev : Option (List Batch)) (ncb : ℕ) :
    (m.evaluate []).2 = none ∧ (m.fit dataloader 0 dev ncb).2.1 = none :=
  ⟨rfl, rfl⟩

/-- C5: `train_step` performs, in order, gradient reset, forward pass, loss
computation, backward pass, exactly one optimizer update, then exactly one
schedule update iff a schedule is configured, and returns a dictionary with
the running loss, the current learning rate when a schedule is configured,
and the computed metrics.  (The hypotheses exclude auxiliary metrics named
`"loss"` or `"lr"`, which would shadow those dictionary keys.) -/
theorem train_step_contract (m : TrainableModule) (xs : List ℚ) (y : ℚ)
    (hloss : "loss" ∉ m.metrics.map Prod.fst)
    (hlr : "lr" ∉ m.metrics.map Prod.fst) :
    (m.train_step xs y).2.2
        = [Event.zeroGrad, Event.forwardPass, Event.lossComputed, Event.backwardPass,
           Event.optimizerStep]
          ++ (if m.schedule.isSome then [Event.scheduleStep] else [])
    ∧ (m.train_step xs y).2.2.count Event.optimizerStep = 1
    ∧ (m.train_step xs y).2.2.count Event.scheduleStep
        = (if m.schedule.isSome then 1 else 0)
    ∧ (m.train_step xs y).1.params
        = m.optimizer.step m.params (m.backward m.params xs y)
    ∧ (m.train_step xs y).1.schedule = m.schedule.map Schedule.step
    ∧ (m.train_step xs y).1.loss_metric
        = m.loss_metric.update (m.lossFn (m.forward m.params xs) y)
    ∧ (m.train_step xs y).2.1
        = ("loss", (m.loss_metric.update (m.lossFn (m.forward m.params xs) y)).compute)
          :: ((m.schedule.map Schedule.step).elim [] fun s => [("lr", s.lr)])
          ++ computeColl (updateColl m.metrics (m.forward m.params xs) y) := by
  refine ⟨?_, ?_, ?_, train_step_params m xs y, train_step_schedule m xs y,
    train_step_loss_metric m xs y, train_step_logs_clean m xs y hloss hlr⟩
  · rw [train_step_events]; cases m.schedule <;> rfl
  · rw [train_step_events]; cases m.schedule <;> rfl
  · rw [train_step_events]; cases m.schedule <;> rfl

theorem train_step_contract_witness :
    "loss" ∉ sampleModule.metrics.map Prod.fst
    ∧ "lr" ∉ sampleModule.metrics.map Prod.fst
    ∧ (sampleModule.train_step [2] 3).2.2.count Event.optimizerStep = 1 :=
  ⟨by simp [sampleModule], by simp [sampleModule],
    (train_step_contract sampleModule [2] 3 (by simp [sampleModule])
      (by simp [sampleModule])).2.1⟩

/-- C3 (amended: the dataloader must yield at least one batch, else the
source raises an unbound-variable error instead of returning a record):
`evaluate` performs a single full pass under `torch.no_grad()` — each batch
updates the accumulators exactly once, so the loss accumulator ends with
exactly one count per batch — returns a metric record, and mutates neither
the learnable parameters nor their gradients. -/
theorem evaluate_contract (m : TrainableModule) (dataloader : List Batch)
    (h : dataloader ≠ []) :
    (m.evaluate dataloader).1.params = m.params
    ∧ (m.evaluate dataloader).1.grads = m.grads
    ∧ ((m.evaluate dataloader).2).isSome = true
    ∧ (m.evaluate dataloader).1.loss_metric.count = dataloader.length := by
  obtain ⟨h1, h2⟩ := evalSteps_params dataloader (passInit m false) none
  refine ⟨h1.trans rfl, h2.trans rfl, ?_, ?_⟩
  · rcases dataloader with _ | ⟨b, rest⟩
    · exact absurd rfl h
    · show ((evalSteps (passInit m false) none (b :: rest)).2).isSome = true
      rw [evalSteps_cons]
      exact evalSteps_isSome _ _ _
  · show (evalSteps (passInit m false) none dataloader).1.loss_metric.count = _
    rw [evalSteps_loss_metric]
    simp [passInit, MeanMetric.reset]

/-- C3 (counterexample): on a dataloader yielding no batches, `evaluate`
produces no metric record (the source dies with `UnboundLocalError`), so the
claim does not hold for *every* dataloader. -/
theorem evaluate_empty_counterexample :
    (sampleModule.evaluate []).2 = none := rfl

theorem evaluate_contract_witness :
    ([(([1] : List ℚ), (2 : ℚ))] : List Batch) ≠ []
    ∧ (sampleModule.evaluate [([1], 2)]).1.params = sampleModule.params :=
  ⟨by simp, (evaluate_contract sampleModule [([1], 2)] (by simp)).1⟩

/-- C1: every fit epoch and every `evaluate` call first resets the loss and
auxiliary metric accumulators (a fit epoch runs
`trainSteps (passInit m true)`, and `evaluate` is definitionally
`evalSteps (passInit m false)`), and after each batch — i.e. after any
prefix of `k ≥ 1` batches — the reported `"loss"` value equals the plain
arithmetic mean of the `k` per-batch loss values seen so far in that pass,
regardless of the accumulator state the pass started from.  (The hypothesis
excludes an auxiliary metric named `"loss"`, which would shadow the key.) -/
theorem running_mean_pass (m : TrainableModule) (bs : List Batch) (k : ℕ)
    (hname : "loss" ∉ m.metrics.map Prod.fst) (hk0 : 0 < k) (hk : k ≤ bs.length) :
    (passInit m true).loss_metric = ⟨0, 0⟩
    ∧ (∀ nm ∈ (passInit m true).metrics, nm.2.acc = (⟨0, 0⟩ : MeanMetric))
    ∧ lookupKey "loss" ((trainSteps (passInit m true) none (bs.take k)).2.getD [])
        = some ((passLosses (passInit m true) (bs.take k)).sum / (k : ℚ))
    ∧ lookupKey "loss" ((evalSteps (passInit m false) none (bs.take k)).2.getD [])
        = some (((bs.take k).map fun b => m.lossFn (m.forward m.params b.1) b.2).sum / (k : ℚ))
    ∧ (m.evaluate bs).2 = (evalSteps (passInit m false) none bs).2 := by
  have hlen : (bs.take k).length = k := by rw [List.length_take]; omega
  have htk : (bs.take k) ≠ [] := by
    intro hcon
    rw [hcon] at hlen
    simp at hlen
    omega
  refine ⟨rfl, ?_, ?_, ?_, rfl⟩
  · intro nm hnm
    simp only [passInit, resetColl, List.mem_map] at hnm
    obtain ⟨x, hx, rfl⟩ := hnm
    rfl
  · rw [trainSteps_loss_lookup _ _ _ htk
      (by show "loss" ∉ (resetColl m.metrics).map Prod.fst
          rw [resetColl_names]; exact hname)]
    rw [trainSteps_loss_metric]
    simp only [MeanMetric.compute, passInit, MeanMetric.reset]
    rw [hlen]
    norm_num
  · rw [evalSteps_loss_lookup _ _ _ htk
      (by show "loss" ∉ (resetColl m.metrics).map Prod.fst
          rw [resetColl_names]; exact hname)]
    rw [evalSteps_loss_metric]
    simp only [MeanMetric.compute, passInit, MeanMetric.reset]
    rw [hlen]
    norm_num

theorem trainSteps_isSome (bs : List Batch) :
    ∀ (m : TrainableModule) (x : Logs), ((trainSteps m (some x) bs).2).isSome = true := by
  induction bs with
  | nil => intro m x; rfl
  | cons b rest ih => intro m x; rw [trainSteps_cons]; exact ih _ _

theorem trainSteps_ne_nil_some (bs : List Batch) (m : TrainableModule)
    (lg : Option Logs) (h : bs ≠ []) : ∃ l, (trainSteps m lg bs).2 = some l := by
  rcases bs with _ | ⟨b, rest⟩
  · exact absurd rfl h
  · rw [trainSteps_cons]
    exact Option.isSome_iff_exists.mp (trainSteps_isSome rest _ _)

theorem evalSteps_ne_nil_some (bs : List Batch) (m : TrainableModule)
    (lg : Option Logs) (h : bs ≠ []) : ∃ l, (evalSteps m lg bs).2 = some l := by
  rcases bs with _ | ⟨b, rest⟩
  · exact absurd rfl h
  · rw [evalSteps_cons]
    exact Option.isSome_iff_exists.mp (evalSteps_isSome rest _ _)

theorem evaluate_ne_nil_some (m : TrainableModule) (d : List Batch) (h : d ≠ []) :
    ∃ l, (m.evaluate d).2 = some l :=
  evalSteps_ne_nil_some d (passInit m false) none h

theorem runEpoch_success (dev : Option (List Batch)) (ncb e : ℕ) (m : TrainableModule)
    (dataloader : List Batch) (hdl : dataloader ≠ [])
    (hdev : ∀ d, dev = some d → d ≠ []) :
    ∃ lg, (runEpoch dev ncb e m dataloader).2.1 = some lg
      ∧ (runEpoch dev ncb e m dataloader).2.2
          = (List.range ncb).map fun i => (i, e, lg) := by
  obtain ⟨tl, htl⟩ := trainSteps_ne_nil_some dataloader (passInit m true) none hdl
  cases dev with
  | none =>
      refine ⟨tl, ?_, ?_⟩ <;> simp only [runEpoch, htl, epochFinish]
  | some d =>
      obtain ⟨dlg, hdlg⟩ :=
        evaluate_ne_nil_some (trainSteps (passInit m true) none dataloader).1 d
          (hdev d rfl)
      refine ⟨devAugment tl dlg, ?_, ?_⟩ <;>
        simp only [runEpoch, htl, hdlg, epochFinish]

theorem runEpoch_dev_logs (ncb e : ℕ) (m : TrainableModule)
    (dataloader d : List Batch) (hdl : dataloader ≠ []) (hd : d ≠ []) :
    ∃ tl, (trainSteps (passInit m true) none dataloader).2 = some tl
      ∧ (runEpoch (some d) ncb e m dataloader).2.1
          = some (devAugment tl
              (((trainSteps (passInit m true) none dataloader).1.evaluate d).2.getD [])) := by
  obtain ⟨tl, htl⟩ := trainSteps_ne_nil_some dataloader (passInit m true) none hdl
  obtain ⟨dlg, hdlg⟩ :=
    evaluate_ne_nil_some (trainSteps (passInit m true) none dataloader).1 d hd
  refine ⟨tl, htl, ?_⟩
  simp only [runEpoch, htl, hdlg, epochFinish, Option.getD_some]

theorem afterEpochsFrom_shift (dataloader : List Batch) (dev : Option (List Batch))
    (ncb : ℕ) (k : ℕ) :
    ∀ (e : ℕ) (m : TrainableModule),
    afterEpochsFrom dataloader dev ncb e m (k + 1)
      = afterEpochsFrom dataloader dev ncb (e + 1)
          ((runEpoch dev ncb e m dataloader).1) k := by
  induction k with
  | zero =>
      intro e m
      show (runEpoch dev ncb (e + 0) (afterEpochsFrom dataloader dev ncb e m 0)
        dataloader).1 = _
      rw [Nat.add_zero]
      rfl
  | succ k ih =>
      intro e m
      show (runEpoch dev ncb (e + (k + 1))
        (afterEpochsFrom dataloader dev ncb e m (k + 1)) dataloader).1 = _
      rw [ih e m, show e + (k + 1) = (e + 1) + k from by omega]
      rfl

theorem logsOfEpochFrom_shift (dataloader : List Batch) (dev : Option (List Batch))
    (ncb : ℕ) (k e : ℕ) (m : TrainableModule) :
    logsOfEpochFrom dataloader dev ncb e m (k + 1)
      = logsOfEpochFrom dataloader dev ncb (e + 1)
          ((runEpoch dev ncb e m dataloader).1) k := by
  unfold logsOfEpochFrom
  rw [afterEpochsFrom_shift, show e + (k + 1) = (e + 1) + k from by omega]

theorem logsOfEpochFrom_some (dataloader : List Batch) (dev : Option (List Batch))
    (ncb : ℕ) (e : ℕ) (m : TrainableModule) (k : ℕ) (hdl : dataloader ≠ [])
    (hdev : ∀ d, dev = some d → d ≠ []) :
    ∃ lg, logsOfEpochFrom dataloader dev ncb e m k = some lg := by
  obtain ⟨lg, h1, _⟩ := runEpoch_success dev ncb (e + k)
    (afterEpochsFrom dataloader dev ncb e m k) dataloader hdl hdev
  exact ⟨lg, h1⟩

theorem flatMap_map_succ (l : List ℕ) (g : ℕ → List (ℕ × ℕ × Logs)) :
    (l.map Nat.succ).flatMap g = l.flatMap fun k => g (k + 1) := by
  induction l with
  | nil => rfl
  | cons a t ih => simp [ih]

theorem flatMap_congr_fn (l : List ℕ) (f g : ℕ → List (ℕ × ℕ × Logs))
    (h : ∀ k, f k = g k) : l.flatMap f = l.flatMap g := by
  induction l with
  | nil => rfl
  | cons a t ih => simp only [List.flatMap_cons, h a, ih]

theorem fitLoop_closed (dataloader : List Batch) (dev : Option (List Batch)) (ncb : ℕ)
    (hdl : dataloader ≠ []) (hdev : ∀ d, dev = some d → d ≠ []) :
    ∀ (fuel e : ℕ) (m : TrainableModule),
    fitLoop dataloader dev ncb fuel e m
      = (afterEpochsFrom dataloader dev ncb e m fuel,
         (if fuel = 0 then none
          else logsOfEpochFrom dataloader dev ncb e m (fuel - 1)),
         true,
         (List.range fuel).flatMap fun k => (List.range ncb).map fun i =>
           (i, e + k, (logsOfEpochFrom dataloader dev ncb e m k).getD [])) := by
  intro fuel
  induction fuel with
  | zero => intro e m; rfl
  | succ fuel ih =>
      intro e m
      obtain ⟨lg, hlg, hcalls⟩ := runEpoch_success dev ncb e m dataloader hdl hdev
      have hL0 : logsOfEpochFrom dataloader dev ncb e m 0 = some lg := by
        unfold logsOfEpochFrom
        rw [Nat.add_zero]
        exact hlg
      simp only [fitLoop]
      split
      next hr => rw [hr] at hlg; exact Option.noConfusion hlg
      next lg2 hr =>
          obtain rfl : lg2 = lg := by rw [hr] at hlg; exact Option.some.inj hlg
          rw [ih (e + 1) (runEpoch dev ncb e m dataloader).1]
          dsimp only
          rw [if_neg (Nat.succ_ne_zero fuel)]
          refine congrArg₂ Prod.mk ?_ (congrArg₂ Prod.mk ?_ (congrArg₂ Prod.mk rfl ?_))
          · exact (afterEpochsFrom_shift dataloader dev ncb fuel e m).symm
          · simp only [Nat.add_sub_cancel]
            cases fuel with
            | zero => simpa using hL0.symm
            | succ k =>
                rw [if_neg (Nat.succ_ne_zero k)]
                simp only [Nat.add_sub_cancel]
                obtain ⟨lg3, hlg3⟩ := logsOfEpochFrom_some dataloader dev ncb (e + 1)
                  (runEpoch dev ncb e m dataloader).1 k hdl hdev
                rw [hlg3, Option.getD_some,
                  logsOfEpochFrom_shift dataloader dev ncb k e m, hlg3]
                simp
          · rw [hcalls, List.range_succ_eq_map, List.flatMap_cons, flatMap_map_succ]
            refine congrArg₂ List.append ?_ ?_
            · rw [Nat.add_zero, hL0, Option.getD_some]
            · refine flatMap_congr_fn _ _ _ fun k => ?_
              rw [logsOfEpochFrom_shift dataloader dev ncb k e m,
                show e + (k + 1) = (e + 1) + k from by omega]

theorem fit_as_fitLoop (m : TrainableModule) (dataloader : List Batch) (epochs : ℕ)
    (dev : Option (List Batch)) (ncb : ℕ) :
    m.fit dataloader epochs dev ncb
      = ((fitLoop dataloader dev ncb epochs 0 m).1,
         (fitLoop dataloader dev ncb epochs 0 m).2.1,
         (fitLoop dataloader dev ncb epochs 0 m).2.2.2) := rfl

/-- C4 (amended: at least one epoch, a dataloader yielding at least one
batch, and — when supplied — a dev set yielding at least one batch are
required, else the source raises an unbound-variable error instead of
returning a record): `fit` returns the final epoch's metric record; when a
dev dataset is supplied that record is the epoch's train record merged, via
`devAugment`, with the final epoch's dev-evaluation record under the
`dev_` key prefix; and after each epoch every callback is invoked once,
receiving the epoch index and that epoch's metric record (the source also
passes the module itself). -/
theorem fit_contract (m : TrainableModule) (dataloader : List Batch) (epochs : ℕ)
    (dev : Option (List Batch)) (ncb : ℕ)
    (hep : 0 < epochs) (hdl : dataloader ≠ [])
    (hdev : ∀ d, dev = some d → d ≠ []) :
    (m.fit dataloader epochs dev ncb).2.1
        = logsOfEpoch dataloader dev ncb m (epochs - 1)
    ∧ ((m.fit dataloader epochs dev ncb).2.1).isSome = true
    ∧ (m.fit dataloader epochs dev ncb).1 = afterEpochs dataloader dev ncb m epochs
    ∧ (m.fit dataloader epochs dev ncb).2.2
        = (List.range epochs).flatMap (fun e => (List.range ncb).map fun i =>
            (i, e, (logsOfEpoch dataloader dev ncb m e).getD []))
    ∧ ∀ d, dev = some d →
        ∃ tl, (trainSteps (passInit (afterEpochs dataloader dev ncb m (epochs - 1)) true)
                none dataloader).2 = some tl
          ∧ (m.fit dataloader epochs dev ncb).2.1
              = some (devAugment tl
                  (((trainSteps (passInit (afterEpochs dataloader dev ncb m (epochs - 1))
                        true) none dataloader).1.evaluate d).2.getD [])) := by
  have hfl := fitLoop_closed dataloader dev ncb hdl hdev epochs 0 m
  have h1 : (m.fit dataloader epochs dev ncb).2.1
      = logsOfEpoch dataloader dev ncb m (epochs - 1) := by
    rw [fit_as_fitLoop, hfl]
    dsimp only
    rw [if_neg (by omega)]
    rfl
  obtain ⟨lgF, hlgF⟩ :=
    logsOfEpochFrom_some dataloader dev ncb 0 m (epochs - 1) hdl hdev
  refine ⟨h1, ?_, ?_, ?_, ?_⟩
  · rw [h1]
    show (logsOfEpochFrom dataloader dev ncb 0 m (epochs - 1)).isSome = true
    rw [hlgF]
    rfl
  · rw [fit_as_fitLoop, hfl]
    rfl
  · rw [fit_as_fitLoop, hfl]
    dsimp only
    refine flatMap_congr_fn _ _ _ fun k => ?_
    rw [Nat.zero_add]
    rfl
  · intro d hd
    subst hd
    have hdne : d ≠ [] := hdev d rfl
    obtain ⟨tl, htl, hre⟩ := runEpoch_dev_logs ncb (0 + (epochs - 1))
      (afterEpochs dataloader (some d) ncb m (epochs - 1)) dataloader d hdl hdne
    refine ⟨tl, htl, ?_⟩
    rw [h1]
    show logsOfEpochFrom dataloader (some d) ncb 0 m (epochs - 1) = _
    unfold logsOfEpochFrom
    exact hre

/-- C4 (counterexample): a call to `fit` with epoch count 0 (a bounded
epoch count) produces no metric record at all — the source raises
`UnboundLocalError` at `return logs` — so the claim does not hold for
every call with a bounded epoch count. -/
theorem fit_zero_epochs_counterexample :
    (sampleModule.fit [([1], 2)] 0 none 0).2.1 = none := rfl

theorem fit_contract_witness :
    (0 : ℕ) < 1 ∧ ([(([1] : List ℚ), (2 : ℚ))] : List Batch) ≠ []
    ∧ ((sampleModule.fit [([1], 2)] 1 none 1).2.1).isSome = true :=
  ⟨by norm_num, by simp,
    (fit_contract sampleModule [([1], 2)] 1 none 1 (by norm_num) (by simp)
      (fun d h => Option.noConfusion h)).2.1⟩

theorem writer_mem (m : TrainableModule) (name : String) (h : name ∈ m.writers) :
    m.writer name = (m, []) := by
  simp [TrainableModule.writer, h]

theorem writer_not_mem (m : TrainableModule) (name : String) (h : name ∉ m.writers) :
    m.writer name
      = ({ m with writers := m.writers ++ [name] }, [Event.createWriter name]) := by
  simp [TrainableModule.writer, h]

theorem addScalars_mem (logs : Logs) :
    ∀ (m : TrainableModule) (name : String) (step : ℕ), name ∈ m.writers →
    addScalars m name step logs
      = (m, logs.map fun kv => Event.addScalar name kv.1 step) := by
  induction logs with
  | nil => intro m name step h; rfl
  | cons kv rest ih =>
      intro m name step h
      simp [addScalars, writer_mem _ _ h, ih _ _ _ h]

theorem addScalars_not_mem (m : TrainableModule) (name : String) (step : ℕ)
    (kv : String × ℚ) (rest : Logs) (h : name ∉ m.writers) :
    addScalars m name step (kv :: rest)
      = ({ m with writers := m.writers ++ [name] },
         Event.createWriter name :: Event.addScalar name kv.1 step
           :: (rest.map fun kv2 => Event.addScalar name kv2.1 step)) := by
  simp [addScalars, writer_not_mem _ _ h,
    addScalars_mem rest { m with writers := m.writers ++ [name] } name step (by simp)]

theorem add_logs_noop_empty (m : TrainableModule) (name : String) (step : ℕ) :
    m.add_logs name [] step = (m, []) := by
  simp [TrainableModule.add_logs]

theorem add_logs_noop_logdir (m : TrainableModule) (name : String) (logs : Logs)
    (step : ℕ) (h : logdirTruthy m.logdir = false) :
    m.add_logs name logs step = (m, []) := by
  simp [TrainableModule.add_logs, h]

theorem add_logs_effective (m : TrainableModule) (name : String) (kv : String × ℚ)
    (rest : Logs) (step : ℕ) (hdir : logdirTruthy m.logdir = true) :
    m.add_logs name (kv :: rest) step
      = (if name ∈ m.writers
         then (m, (kv :: rest).map (fun kv2 => Event.addScalar name kv2.1 step)
                    ++ [Event.flushWriter name])
         else ({ m with writers := m.writers ++ [name] },
               Event.createWriter name
                 :: ((kv :: rest).map (fun kv2 => Event.addScalar name kv2.1 step)
                      ++ [Event.flushWriter name]))) := by
  by_cases h : name ∈ m.writers
  · simp [TrainableModule.add_logs, hdir, addScalars_mem _ _ _ _ h, writer_mem _ _ h, h]
  · rw [if_neg h]
    simp [TrainableModule.add_logs, hdir, addScalars_not_mem _ _ _ _ _ h,
      writer_mem { m with writers := m.writers ++ [name] } name (by simp)]

theorem add_logs_logdir (m : TrainableModule) (name : String) (logs : Logs)
    (step : ℕ) : (m.add_logs name logs step).1.logdir = m.logdir := by
  rcases logs with _ | ⟨kv, rest⟩
  · rw [add_logs_noop_empty]
  · by_cases hdir : logdirTruthy m.logdir
    · rw [add_logs_effective _ _ _ _ _ hdir]
      by_cases h : name ∈ m.writers <;> simp [h]
    · rw [add_logs_noop_logdir _ _ _ _ (by simpa using hdir)]

theorem add_logs_writers (m : TrainableModule) (name : String) (kv : String × ℚ)
    (rest : Logs) (step : ℕ) (hdir : logdirTruthy m.logdir = true) :
    (m.add_logs name (kv :: rest) step).1.writers
      = (if name ∈ m.writers then m.writers else m.writers ++ [name]) := by
  rw [add_logs_effective _ _ _ _ _ hdir]
  by_cases h : name ∈ m.writers <;> simp [h]

/-- C10 (amended: "otherwise" additionally requires the configured log
directory to be a nonempty string — Python truthiness makes `add_logs` with
an empty-string logdir write nothing as well): when the log directory is
`None` or the logs dictionary is empty, `add_logs` changes nothing and emits
no writer/file events; otherwise at most one writer is ever created per
stream name (a second call for the same name creates none), and the trace of
each effective call ends with a flush of that stream's writer. -/
theorem add_logs_contract (m : TrainableModule) (name : String) (logs : Logs)
    (step : ℕ) (dir : String) (hlogs : logs ≠ []) (hdir : m.logdir = some dir)
    (hdir2 : dir ≠ "") :
    (∀ (m2 : TrainableModule) (name2 : String) (step2 : ℕ),
        m2.add_logs name2 [] step2 = (m2, []))
    ∧ (∀ (m2 : TrainableModule) (name2 : String) (logs2 : Logs) (step2 : ℕ),
        m2.logdir = none → m2.add_logs name2 logs2 step2 = (m2, []))
    ∧ (m.add_logs name logs step).1.writers
        = (if name ∈ m.writers then m.writers else m.writers ++ [name])
    ∧ name ∈ (m.add_logs name logs step).1.writers
    ∧ (m.add_logs name logs step).2.count (Event.createWriter name)
        = (if name ∈ m.writers then 0 else 1)
    ∧ (m.add_logs name logs step).2.getLast? = some (Event.flushWriter name)
    ∧ (∀ (logs2 : Logs) (step2 : ℕ),
        (((m.add_logs name logs step).1).add_logs name logs2 step2).2.count
          (Event.createWriter name) = 0) := by
  have hT : logdirTruthy m.logdir = true := by
    rw [hdir]; simpa [logdirTruthy] using hdir2
  rcases logs with _ | ⟨kv, rest⟩
  · exact absurd rfl hlogs
  have hwriters := add_logs_writers m name kv rest step hT
  have hmem : name ∈ (m.add_logs name (kv :: rest) step).1.writers := by
    rw [hwriters]; by_cases h : name ∈ m.writers <;> simp [h]
  refine ⟨fun m2 name2 step2 => add_logs_noop_empty m2 name2 step2,
    fun m2 name2 logs2 step2 h2 => add_logs_noop_logdir m2 name2 logs2 step2 (by
      rw [h2]; rfl),
    hwriters, hmem, ?_, ?_, ?_⟩
  · rw [add_logs_effective _ _ _ _ _ hT]
    by_cases h : name ∈ m.writers <;>
      simp [h, List.count_append, List.count_cons, List.count_eq_zero]
  · rw [add_logs_effective _ _ _ _ _ hT]
    by_cases h : name ∈ m.writers
    · rw [if_pos h]
      dsimp only
      rw [List.getLast?_append_cons]
      simp
    · rw [if_neg h]
      dsimp only
      rw [← List.cons_append, List.getLast?_append_cons]
      simp
  · intro logs2 step2
    rcases logs2 with _ | ⟨kv2, rest2⟩
    · rw [add_logs_noop_empty]; rfl
    · by_cases hT2 : logdirTruthy (m.add_logs name (kv :: rest) step).1.logdir
      · rw [add_logs_effective _ _ _ _ _ hT2, if_pos hmem]
        simp [List.count_append, List.count_cons, List.count_eq_zero]
      · rw [add_logs_noop_logdir _ _ _ _ (by simpa using hT2)]; rfl

/-- C10 (counterexample): with a configured log directory that is the empty
string (neither `None` nor an empty logs dictionary, so the claim's
"otherwise" branch applies), `add_logs` creates no writer and flushes
nothing — Python's truthiness test `if logs and self.logdir:` fails. -/
theorem add_logs_empty_logdir_counterexample :
    ({ sampleModule with logdir := some "" }).add_logs "train" [("loss", 1)] 3
      = ({ sampleModule with logdir := some "" }, []) := by
  simp [TrainableModule.add_logs, logdirTruthy]

theorem add_logs_contract_witness :
    ([(("loss" : String), (1 : ℚ))] : Logs) ≠ []
    ∧ sampleModule.logdir = some "logs/run"
    ∧ ("logs/run" : String) ≠ ""
    ∧ "train" ∈ (sampleModule.add_logs "train" [("loss", 1)] 1).1.writers :=
  ⟨by simp, rfl, by simp,
    (add_logs_contract sampleModule "train" [("loss", 1)] 1 "logs/run"
      (by simp) rfl (by simp)).2.2.2.1⟩

theorem argmaxIdx_two_or_more (x y : ℚ) (rest : List ℚ) :
    argmaxIdx (x :: y :: rest)
      = (if x < (y :: rest).getD (argmaxIdx (y :: rest)) 0
         then argmaxIdx (y :: rest) + 1
         else 0) := by
  rw [argmaxIdx]

theorem argmaxIdx_lt (l : List ℚ) (h : l ≠ []) : argmaxIdx l < l.length := by
  induction l with
  | nil => exact absurd rfl h
  | cons x t ih =>
      cases t with
      | nil => simp [argmaxIdx]
      | cons y rest =>
          rw [argmaxIdx_two_or_more]
          have hlt := ih (by simp)
          simp only [List.length_cons] at hlt ⊢
          by_cases hc : x < (y :: rest).getD (argmaxIdx (y :: rest)) 0
          · rw [if_pos hc]; omega
          · rw [if_neg hc]; omega

theorem argmaxIdx_max (l : List ℚ) :
    ∀ i, i < l.length → l.getD i 0 ≤ l.getD (argmaxIdx l) 0 := by
  induction l with
  | nil => intro i hi; simp at hi
  | cons x t ih =>
      intro i hi
      cases t with
      | nil =>
          obtain rfl : i = 0 := by simp at hi; omega
          simp [argmaxIdx]
      | cons y rest =>
          rw [argmaxIdx_two_or_more]
          by_cases hc : x < (y :: rest).getD (argmaxIdx (y :: rest)) 0
          · rw [if_pos hc]
            cases i with
            | zero => simpa using le_of_lt hc
            | succ k =>
                simp only [List.getD_cons_succ]
                exact ih k (by simp only [List.length_cons] at hi ⊢; omega)
          · rw [if_neg hc]
            push_neg at hc
            cases i with
            | zero => simp
            | succ k =>
                simp only [List.getD_cons_succ, List.getD_cons_zero]
                exact le_trans
                  (ih k (by simp only [List.length_cons] at hi ⊢; omega)) hc

theorem getD_take (r : List ℚ) : ∀ (L j : ℕ), j < L →
    (r.take L).getD j 0 = r.getD j 0 := by
  induction r with
  | nil => intro L j _; simp
  | cons a t ih =>
      intro L j hj
      cases L with
      | zero => omega
      | succ L2 =>
          cases j with
          | zero => simp
          | succ j2 =>
              simp only [List.take_succ_cons, List.getD_cons_succ]
              exact ih L2 j2 (by omega)

theorem column_length (p : List (List ℚ)) (j : ℕ) :
    (column p j).length = p.length := by
  simp [column]

theorem column_map_take (p : List (List ℚ)) (L j : ℕ) (hj : j < L) :
    column (p.map (List.take L)) j = column p j := by
  unfold column
  rw [List.map_map]
  apply List.map_congr_left
  intro r _
  simp only [Function.comp_apply]
  exact getD_take r L j hj

theorem column_getD (p : List (List ℚ)) (j : ℕ) :
    ∀ i, i < p.length → (column p j).getD i 0 = (p.getD i []).getD j 0 := by
  induction p with
  | nil => intro i hi; simp at hi
  | cons r t ih =>
      intro i hi
      cases i with
      | zero => simp [column]
      | succ k =>
          simp only [column, List.map_cons, List.getD_cons_succ]
          exact ih k (by simp only [List.length_cons] at hi ⊢; omega)

theorem numCols_map_take (p : List (List ℚ)) (L : ℕ) (hp : p ≠ [])
    (h : ∀ r ∈ p, L ≤ r.length) :
    numCols (p.map (List.take L)) = L := by
  rcases p with _ | ⟨r, t⟩
  · exact absurd rfl hp
  · have := h r (by simp)
    simp only [numCols, List.map_cons, List.headD_cons, List.length_take]
    omega

theorem getD_map_range (L j : ℕ) (F : ℕ → String) (hj : j < L) (d : String) :
    ((List.range L).map F).getD j d = F j := by
  have h1 : j < ((List.range L).map F).length := by simpa using hj
  rw [List.getD_eq_getElem _ _ h1, List.getElem_map, List.getElem_range]

theorem sentenceLines_spec (vocab : ℕ → String) (p : List (List ℚ))
    (forms : List String) (hp : p ≠ []) (hrows : ∀ r ∈ p, forms.length ≤ r.length) :
    (sentenceLines vocab p forms).length = forms.length + 1
    ∧ (sentenceLines vocab p forms).getLast? = some ""
    ∧ ∀ j, j < forms.length →
        (sentenceLines vocab p forms).getD j "" = vocab (argmaxIdx (column p j))
        ∧ argmaxIdx (column p j) < p.length
        ∧ ∀ i, i < p.length →
            (p.getD i []).getD j 0 ≤ (p.getD (argmaxIdx (column p j)) []).getD j 0 := by
  have hnc := numCols_map_take p forms.length hp hrows
  have hax : argmaxAxis0 (p.map (List.take forms.length))
      = (List.range forms.length).map
          fun j => argmaxIdx (column (p.map (List.take forms.length)) j) := by
    unfold argmaxAxis0
    rw [hnc]
  refine ⟨?_, ?_, ?_⟩
  · unfold sentenceLines
    rw [hax]
    simp
  · unfold sentenceLines
    rw [List.getLast?_append_cons]
    rfl
  · intro j hj
    have hcoltake := column_map_take p forms.length j hj
    have hgd : (sentenceLines vocab p forms).getD j ""
        = vocab (argmaxIdx (column p j)) := by
      unfold sentenceLines
      rw [hax, List.map_map]
      rw [List.getD_append _ _ _ _ (by simpa using hj)]
      rw [getD_map_range forms.length j
        (vocab ∘ fun j2 => argmaxIdx (column (p.map (List.take forms.length)) j2)) hj ""]
      simp only [Function.comp_apply]
      rw [hcoltake]
    have hple : 0 < p.length := List.length_pos.mpr hp
    have hcolne : column p j ≠ [] := by
      intro hcon
      have := column_length p j
      rw [hcon] at this
      simp at this
      omega
    have hlt : argmaxIdx (column p j) < p.length := by
      have := argmaxIdx_lt (column p j) hcolne
      rwa [column_length] at this
    refine ⟨hgd, hlt, ?_⟩
    intro i hi
    have h1 := argmaxIdx_max (column p j) i (by rwa [column_length])
    rwa [column_getD p j i hi, column_getD p j _ hlt] at h1

/-- C8: the prediction file written by `main` consists, for each
prediction/test-sentence pair, of exactly one line per position among the
sentence's first `len(forms)` positions — each line the vocabulary string of
a row index whose score is maximal at that position — followed by exactly
one blank line per sentence.  The hypotheses state the padding contract of
`predict`: each per-sentence prediction matrix is nonempty and has at least
`len(forms)` columns in every row. -/
theorem predictions_file_format (vocab : ℕ → String)
    (predictions : List (List (List ℚ))) (formsList : List (List String))
    (h : ∀ pf ∈ predictions.zip formsList,
        pf.1 ≠ [] ∧ ∀ r ∈ pf.1, pf.2.length ≤ r.length) :
    writePredictions vocab predictions formsList
      = (predictions.zip formsList).flatMap
          (fun pf => sentenceLines vocab pf.1 pf.2)
    ∧ ∀ pf ∈ predictions.zip formsList,
        (sentenceLines vocab pf.1 pf.2).length = pf.2.length + 1
        ∧ (sentenceLines vocab pf.1 pf.2).getLast? = some ""
        ∧ ∀ j, j < pf.2.length → ∃ i, i < pf.1.length
            ∧ (sentenceLines vocab pf.1 pf.2).getD j "" = vocab i
            ∧ ∀ i2, i2 < pf.1.length →
                (pf.1.getD i2 []).getD j 0 ≤ (pf.1.getD i []).getD j 0 := by
  refine ⟨rfl, ?_⟩
  intro pf hpf
  obtain ⟨hp, hrows⟩ := h pf hpf
  obtain ⟨h1, h2, h3⟩ := sentenceLines_spec vocab pf.1 pf.2 hp hrows
  refine ⟨h1, h2, ?_⟩
  intro j hj
  obtain ⟨hgd, hlt, hmax⟩ := h3 j hj
  exact ⟨argmaxIdx (column pf.1 j), hlt, hgd, hmax⟩

theorem predictions_file_format_witness :
    (∀ pf ∈ (([[[1, 2], [3, 0]]] : List (List (List ℚ))).zip
        ([["w1", "w2"]] : List (List String))),
        pf.1 ≠ [] ∧ ∀ r ∈ pf.1, pf.2.length ≤ r.length)
    ∧ writePredictions (fun n => if n = 0 then "A" else "B")
        [[[1, 2], [3, 0]]] [["w1", "w2"]]
        = (([[[1, 2], [3, 0]]] : List (List (List ℚ))).zip
            ([["w1", "w2"]] : List (List String))).flatMap
            (fun pf => sentenceLines (fun n => if n = 0 then "A" else "B") pf.1 pf.2) :=
  ⟨by simp, (predictions_file_format (fun n => if n = 0 then "A" else "B")
    [[[1, 2], [3, 0]]] [["w1", "w2"]] (by simp)).1⟩

theorem running_mean_pass_witness :
    "loss" ∉ sampleModule.metrics.map Prod.fst
    ∧ 0 < 2 ∧ 2 ≤ ([(([1] : List ℚ), (2 : ℚ)), ([2], 1)] : List Batch).length
    ∧ lookupKey "loss"
        ((trainSteps (passInit sampleModule true) none
          (([(([1] : List ℚ), (2 : ℚ)), ([2], 1)] : List Batch).take 2)).2.getD [])
        = some ((passLosses (passInit sampleModule true)
            (([(([1] : List ℚ), (2 : ℚ)), ([2], 1)] : List Batch).take 2)).sum / (2 : ℚ)) :=
  ⟨by simp [sampleModule], by norm_num, by norm_num,
    (running_mean_pass sampleModule [([1], 2), ([2], 1)] 2
      (by simp [sampleModule]) (by norm_num) (by norm_num)).2.2.1⟩

end Tagger
